import Mathlib

/-!
Verification of the document-ingestion core of the JamAIBase `docio` service
(`services/docio/src/docio/routers/loader.py`): content sanitization
(`make_printable`), extension-based dispatch and normalization (`load_file`)
and the upload endpoint (`load_file_api`).

Strings are modelled as lists of characters (sequences of Unicode code
points); Python dicts as ordered association lists with the insertion /
override operations Python guarantees; the filesystem and the third-party
extraction libraries (langchain loaders, pdfplumber) as an abstract
`extract` function supplied to `load_file`.
-/

/-- Models Python's per-code-point `str.isprintable`: a character is printable
unless its Unicode general category is Cc, Cf, Cs, Co, Cn, Zl, Zp or Zs
(the space character U+0020 excepted, which is printable).  The table is
exact on the Basic Latin and Latin-1 blocks, the general-punctuation
separator/format ranges, surrogates and the BMP private-use area; unassigned
(Cn) code points outside the listed ranges are approximated as printable.
No property proved in this file depends on the table beyond these ranges. -/
def isPrintable (i : Nat) : Bool :=
  if i < 0x20 then false                            -- C0 controls (Cc)
  else if i ≤ 0x7E then true                        -- printable ASCII incl. space
  else if i ≤ 0x9F then false                       -- DEL and C1 controls (Cc)
  else if i = 0xA0 then false                       -- no-break space (Zs)
  else if i = 0xAD then false                       -- soft hyphen (Cf)
  else if 0x2000 ≤ i ∧ i ≤ 0x200F then false        -- spaces, ZWSP, joiners, marks (Zs/Cf)
  else if i = 0x2028 ∨ i = 0x2029 then false        -- line / paragraph separator (Zl/Zp)
  else if 0x202A ≤ i ∧ i ≤ 0x202E then false        -- directional formatting (Cf)
  else if i = 0x205F ∨ i = 0x3000 then false        -- math space, ideographic space (Zs)
  else if 0x2060 ≤ i ∧ i ≤ 0x2069 then false        -- word joiner, invisibles, isolates (Cf)
  else if 0xD800 ≤ i ∧ i ≤ 0xDFFF then false        -- surrogates (Cs)
  else if 0xE000 ≤ i ∧ i ≤ 0xF8FF then false        -- private use area (Co)
  else if i = 0xFEFF then false                     -- zero width no-break space (Cf)
  else if 0x110000 ≤ i then false                   -- beyond sys.maxunicode
  else true

/-- Membership in `NOPRINT_TRANS_TABLE`, the translate table
`{i: None for i in range(0, sys.maxunicode + 1) if not chr(i).isprintable() and chr(i) != "\n"}`:
code point `i` is mapped to `None` (i.e. deleted) iff it is not printable
and is not the newline character (code point 10). -/
def NOPRINT_TRANS_TABLE (i : Nat) : Bool :=
  !(isPrintable i) && (i != 10)

/-- Models Python `str.translate` with a table whose entries map code points
to `None`: every character whose code point is in the table is deleted. -/
def stringTranslate (s : List Char) (tableDeletes : Nat → Bool) : List Char :=
  s.filter (fun c => !(tableDeletes c.toNat))

/-- The sanitizer `make_printable(s)`: `s.translate(NOPRINT_TRANS_TABLE)`. -/
def make_printable (s : List Char) : List Char :=
  stringTranslate s NOPRINT_TRANS_TABLE

/-- Index of the last occurrence of `c` in `l`, or `-1` if there is none
(models Python `str.rfind`). -/
def lastIdxOf (l : List Char) (c : Char) : Int :=
  match l with
  | [] => -1
  | x :: xs =>
    let r := lastIdxOf xs c
    if 0 ≤ r then r + 1 else if x = c then 0 else -1

/-- Models `posixpath.splitext`: split at the last `.` of the final path
component, except that leading dots of that component do not start an
extension (so `.bashrc` has no extension).  Returns `(root, ext)` with
`root ++ ext = p`. -/
def splitext (p : List Char) : List Char × List Char :=
  let sepIndex := lastIdxOf p '/'
  let dotIndex := lastIdxOf p '.'
  if sepIndex < dotIndex then
    -- the part of the final component strictly before the last dot
    let base := (p.drop (sepIndex + 1).toNat).take (dotIndex - sepIndex - 1).toNat
    if base.any (fun ch => ch != '.') then
      (p.take dotIndex.toNat, p.drop dotIndex.toNat)
    else (p, [])
  else (p, [])

/-- Python `str.lower` on an extension (per-character lowercasing). -/
def lowerStr (s : List Char) : List Char :=
  s.map Char.toLower

/-- A metadata value: langchain / jamaibase document metadata holds integers
(page and row indices) and strings (source paths, ids). -/
inductive MVal where
  | int (n : Int)
  | str (s : List Char)
deriving DecidableEq, Repr

/-- A Python dict with string keys, modelled as an ordered association list
whose keys are unique by construction of the operations below (insertion
order preserved, assignment to an existing key updates in place). -/
abbrev Dict := List (String × MVal)

/-- Python `d[key]` / `d.get(key)`: the value stored at `key` (keys are
unique in a dict, so the first match is the binding). -/
def dictGet (d : Dict) (key : String) : Option MVal :=
  match d with
  | [] => none
  | (k, v) :: rest => if k = key then some v else dictGet rest key

/-- Python `d[key] = v`: update in place if `key` is present, else append. -/
def dictInsert (d : Dict) (key : String) (v : MVal) : Dict :=
  match d with
  | [] => [(key, v)]
  | (k, v') :: rest =>
    if k = key then (k, v) :: rest else (k, v') :: dictInsert rest key v

/-- Python `{**d, **pairs}`-style unpacking: insert the pairs in order into
`d`, later bindings overriding earlier ones. -/
def dictUnpack (d : Dict) (pairs : List (String × MVal)) : Dict :=
  pairs.foldl (fun acc kv => dictInsert acc kv.1 kv.2) d

/-- The value bound to `key` by the LAST pair of a pair list carrying it
(specification device for `dictUnpack`; coincides with `dictGet` when the
keys are unique). -/
def lookupLast (m : List (String × MVal)) (key : String) : Option MVal :=
  match m with
  | [] => none
  | (k, v) :: rest =>
    match lookupLast rest key with
    | some w => some w
    | none => if k = key then some v else none

/-- A raw document as produced by a langchain loader's `load()`
(an extraction unit: text plus extractor-native metadata). -/
structure RawDoc where
  page_content : List Char
  metadata : Dict
deriving DecidableEq, Repr

/-- The `jamaibase.protocol.Document`: the canonical output unit. -/
structure Document where
  page_content : List Char
  metadata : Dict
deriving DecidableEq, Repr

/-- The loader selected by `load_file`'s conditional chain. -/
inductive Loader where
  | textLoader        -- loaders.TextLoader
  | pdfPlumberLoader  -- docio.langchain.pdfplumber.PDFPlumberLoader
  | csvLoader         -- loaders.CSVLoader
deriving DecidableEq, Repr

/-- A Python exception escaping the pipeline: `ValueError` raised by
`load_file` for an unsupported extension (carrying its message), or a
failure raised inside a loader's `load()`. -/
inductive PyErr where
  | valueError (msg : List Char)
  | extractionError (msg : List Char)
deriving DecidableEq, Repr

/-- The message of the unsupported-file-type `ValueError`:
`f"Unsupported file type: {ext}"`. -/
def unsupportedMsg (ext : List Char) : List Char :=
  "Unsupported file type: ".data ++ ext

/-- The extension dispatch chain of `load_file` (the `if ext in (".txt", ".md")
... elif ... else raise ValueError` conditional), applied to the lowered
extension: which loader is constructed, or the `ValueError` raised. -/
def selectLoader (ext : List Char) : Except PyErr Loader :=
  if ext = ".txt".data ∨ ext = ".md".data then .ok .textLoader
  else if ext = ".pdf".data then .ok .pdfPlumberLoader
  else if ext = ".csv".data then .ok .csvLoader
  else .error (.valueError (unsupportedMsg ext))

/-- The normalization `load_file` applies to each raw document:
`Document(page_content=make_printable(d.page_content),
metadata={"page": d.metadata.get("page", 0), **d.metadata})`. -/
def normalizeDoc (d : RawDoc) : Document :=
  { page_content := make_printable d.page_content
    metadata :=
      dictUnpack [("page", (dictGet d.metadata "page").getD (.int 0))] d.metadata }

/-- The value `ext = splitext(file_path)[1].lower()`, the first line of `load_file`. -/
def extOf (file_path : List Char) : List Char :=
  lowerStr (splitext file_path).2

/-- The operation `load_file(file_path)`: dispatch on the lowered extension of
`splitext(file_path)`, run the selected loader's `load()` (modelled by the
abstract `extract`, which may raise), and normalize each returned document
in order.  Exceptions are modelled by `Except`: a raised error propagates. -/
def load_file (extract : Loader → Except PyErr (List RawDoc))
    (file_path : List Char) : Except PyErr (List Document) :=
  let ext := extOf file_path
  match selectLoader ext with
  | .error e => .error e
  | .ok loader =>
    match extract loader with
    | .error e => .error e
    | .ok documents => .ok (documents.map normalizeDoc)

/-- The uploaded file seen by `load_file_api`.  The body bytes are not
modelled: they reach the pipeline only through the staged temporary file,
whose extraction is abstracted by `extract`. -/
structure UploadFile where
  filename : List Char
deriving DecidableEq, Repr

/-- The dot-free, slash-prefixed random stem of the `NamedTemporaryFile`
name (`/tmp/` plus a random token that contains no `.`); the actual random
token is irrelevant to every property proved here. -/
def tmpStem : List Char := "/tmp/tmpa1b2c3d4".data

/-- The name of the temporary file staged for an upload:
`NamedTemporaryFile(suffix=ext)` with `ext = splitext(file.filename)[1]`
(not lowered). -/
def tmpPath (file : UploadFile) : List Char :=
  tmpStem ++ (splitext file.filename).2

/-- The per-document mutation loop after a successful load:
`d.metadata["source"] = file.filename; d.metadata["document_id"] = file.filename`. -/
def overlayMeta (filename : List Char) (d : Document) : Document :=
  { d with
    metadata :=
      dictInsert (dictInsert d.metadata "source" (.str filename))
        "document_id" (.str filename) }

/-- The endpoint `load_file_api(file)`: stage the upload into a `NamedTemporaryFile`
(created on entering the `with` block, deleted on leaving it on every
path), run `load_file` on the temporary name, then write the `source` and
`document_id` overlay into every document.  The `except` clauses log and
re-raise, so errors pass through unchanged (`raise` with no argument). -/
def load_file_api (extract : Loader → Except PyErr (List RawDoc))
    (file : UploadFile) : Except PyErr (List Document) :=
  let body : Except PyErr (List Document) :=
    match load_file extract (tmpPath file) with
    | .error e => .error e
    | .ok documents => .ok (documents.map (overlayMeta file.filename))
  match body with
  | .ok docs => .ok docs
  | .error e => .error e  -- logger.exception(...); raise

/-- The endpoint `load_file_api` with the temporary-file lifecycle made explicit:
`fs` is the set of live temporary files (with their open handles), threaded
through the call.  Entering `with NamedTemporaryFile(suffix=ext) as tmp:`
creates the file; leaving the block — normally or by exception — runs
`__exit__`, which closes and deletes it before the exception (if any)
continues to propagate. -/
def load_file_api_fs (extract : Loader → Except PyErr (List RawDoc))
    (file : UploadFile) (fs : List (List Char)) :
    Except PyErr (List Document) × List (List Char) :=
  let fs1 := tmpPath file :: fs                    -- NamedTemporaryFile(...)
  let body := load_file extract (tmpPath file)     -- inside the with block
  let fs2 := fs1.erase (tmpPath file)              -- __exit__: close + delete
  match body with
  | .error e => (.error e, fs2)
  | .ok documents => (.ok (documents.map (overlayMeta file.filename)), fs2)

/-! ### Helper lemmas -/

theorem char_eq_newline_iff_toNat (c : Char) : c = '\n' ↔ c.toNat = 10 := by
  constructor
  · intro h; subst h; rfl
  · intro h; exact Char.ext (UInt32.ext h)

/-- A character survives `NOPRINT_TRANS_TABLE` iff it is printable or is the
newline character. -/
theorem not_noprint_iff (c : Char) :
    (!(NOPRINT_TRANS_TABLE c.toNat)) = (isPrintable c.toNat || c = '\n') := by
  unfold NOPRINT_TRANS_TABLE
  cases hp : isPrintable c.toNat <;>
    by_cases h10 : c.toNat = 10 <;>
      simp [hp, h10, char_eq_newline_iff_toNat]

/-- The sanitizer `make_printable` is the filter keeping exactly the printable characters
and newlines. -/
theorem make_printable_eq_filter (s : List Char) :
    make_printable s = s.filter (fun c => isPrintable c.toNat || c = '\n') := by
  unfold make_printable stringTranslate
  exact List.filter_congr fun c _ => not_noprint_iff c

example : make_printable ['h', 'i', '\x07', '\n'] = ['h', 'i', '\n'] := by decide
example : splitext ['a', '.', 't', 'x', 't'] = (['a'], ['.', 't', 'x', 't']) := by decide
example : splitext ['.', 'b', 'a', 's', 'h', 'r', 'c'] = (['.', 'b', 'a', 's', 'h', 'r', 'c'], []) := by decide
example : splitext ['a', '.', 'b', '.', 'c'] = (['a', '.', 'b'], ['.', 'c']) := by decide
example : splitext ['/', 'a', '.', 'b', '/', 'c'] = (['/', 'a', '.', 'b', '/', 'c'], []) := by decide

theorem dictGet_dictInsert (d : Dict) (key : String) (v : MVal) (key' : String) :
    dictGet (dictInsert d key v) key'
      = if key = key' then some v else dictGet d key' := by
  induction d with
  | nil =>
    by_cases h : key = key' <;> simp [dictInsert, dictGet, h]
  | cons hd tl ih =>
    obtain ⟨k, w⟩ := hd
    by_cases hk : k = key
    · subst hk
      by_cases h : k = key' <;> simp [dictInsert, dictGet, h]
    · by_cases h : k = key'
      · subst h
        simp [dictInsert, dictGet, hk, Ne.symm hk]
      · simp [dictInsert, dictGet, hk, h, ih]

theorem dictGet_dictUnpack (m : List (String × MVal)) (d : Dict) (key : String) :
    dictGet (dictUnpack d m) key
      = match lookupLast m key with
        | some w => some w
        | none => dictGet d key := by
  induction m generalizing d with
  | nil => simp [dictUnpack, lookupLast]
  | cons hd tl ih =>
    obtain ⟨k, v⟩ := hd
    show dictGet (dictUnpack (dictInsert d k v) tl) key = _
    rw [ih]
    cases hlast : lookupLast tl key with
    | some w => simp [lookupLast, hlast]
    | none =>
      rw [dictGet_dictInsert]
      by_cases h : k = key <;> simp [lookupLast, hlast, h]

/-- A key found by `lookupLast` is a key of the list. -/
theorem lookupLast_mem (m : List (String × MVal)) (key : String) (w : MVal)
    (h : lookupLast m key = some w) : key ∈ m.map Prod.fst := by
  induction m with
  | nil => simp [lookupLast] at h
  | cons hd tl ih =>
    obtain ⟨k, v⟩ := hd
    simp only [lookupLast] at h
    simp only [List.map_cons, List.mem_cons]
    cases hl : lookupLast tl key with
    | some w2 =>
      rw [hl] at h
      exact Or.inr (ih (hl.trans h))
    | none =>
      rw [hl] at h
      by_cases hk : k = key
      · exact Or.inl hk.symm
      · simp [hk] at h

theorem lookupLast_eq_dictGet (m : List (String × MVal)) (key : String)
    (hnd : (m.map Prod.fst).Nodup) :
    lookupLast m key = dictGet m key := by
  induction m with
  | nil => rfl
  | cons hd tl ih =>
    obtain ⟨k, v⟩ := hd
    simp only [List.map_cons, List.nodup_cons] at hnd
    simp only [lookupLast, dictGet]
    by_cases h : k = key
    · subst h
      cases hl : lookupLast tl k with
      | some w => exact absurd (lookupLast_mem tl k w hl) hnd.1
      | none => simp
    · rw [ih hnd.2]
      cases dictGet tl key <;> simp [h]

/-- The metadata produced by `normalizeDoc` binds `"page"` to the unit's
own `"page"` value when present (Python dict keys are unique), else `0`. -/
theorem normalizeDoc_page (d : RawDoc) (hnd : (d.metadata.map Prod.fst).Nodup) :
    dictGet (normalizeDoc d).metadata "page"
      = some ((dictGet d.metadata "page").getD (.int 0)) := by
  show dictGet (dictUnpack [("page", (dictGet d.metadata "page").getD (.int 0))] d.metadata) "page" = _
  rw [dictGet_dictUnpack, lookupLast_eq_dictGet _ _ hnd]
  cases h : dictGet d.metadata "page" <;> simp [dictGet]

/-- The overlay loop of `load_file_api` leaves `"source"` and
`"document_id"` bound to the uploaded filename. -/
theorem overlayMeta_get (filename : List Char) (d : Document) :
    dictGet (overlayMeta filename d).metadata "source" = some (.str filename)
    ∧ dictGet (overlayMeta filename d).metadata "document_id" = some (.str filename) := by
  unfold overlayMeta
  constructor
  · rw [dictGet_dictInsert]
    simp only [if_neg (by decide : ¬("document_id" = "source"))]
    rw [dictGet_dictInsert]
    simp
  · rw [dictGet_dictInsert]
    simp

theorem load_file_eq_ok {extract : Loader → Except PyErr (List RawDoc)}
    {p : List Char} {loader : Loader} {raws : List RawDoc}
    (hsel : selectLoader (extOf p) = .ok loader)
    (hex : extract loader = .ok raws) :
    load_file extract p = .ok (raws.map normalizeDoc) := by
  simp only [load_file, hsel, hex]

theorem load_file_eq_err_sel {extract : Loader → Except PyErr (List RawDoc)}
    {p : List Char} {e : PyErr} (hsel : selectLoader (extOf p) = .error e) :
    load_file extract p = .error e := by
  simp only [load_file, hsel]

theorem load_file_eq_err_ex {extract : Loader → Except PyErr (List RawDoc)}
    {p : List Char} {loader : Loader} {e : PyErr}
    (hsel : selectLoader (extOf p) = .ok loader)
    (hex : extract loader = .error e) :
    load_file extract p = .error e := by
  simp only [load_file, hsel, hex]

/-- Exactly the successful runs of `load_file`: a loader is selected and
its `load()` returns raw documents. -/
theorem load_file_ok_iff (extract : Loader → Except PyErr (List RawDoc))
    (p : List Char) (docs : List Document) :
    load_file extract p = .ok docs
      ↔ ∃ loader raws, selectLoader (extOf p) = .ok loader
          ∧ extract loader = .ok raws ∧ docs = raws.map normalizeDoc := by
  constructor
  · intro h
    cases hsel : selectLoader (extOf p) with
    | error e =>
      rw [load_file_eq_err_sel hsel] at h
      exact Except.noConfusion h
    | ok loader =>
      cases hex : extract loader with
      | error e =>
        rw [load_file_eq_err_ex hsel hex] at h
        exact Except.noConfusion h
      | ok raws =>
        rw [load_file_eq_ok hsel hex] at h
        injection h with h
        exact ⟨loader, raws, rfl, hex, h.symm⟩
  · rintro ⟨loader, raws, hsel, hex, h3⟩
    rw [h3]
    exact load_file_eq_ok hsel hex

theorem neg_one_le_lastIdxOf (l : List Char) (c : Char) : -1 ≤ lastIdxOf l c := by
  induction l with
  | nil => simp [lastIdxOf]
  | cons x xs ih =>
    show -1 ≤ (if 0 ≤ lastIdxOf xs c then lastIdxOf xs c + 1
      else if x = c then 0 else -1)
    split
    · omega
    · split <;> omega

theorem lastIdxOf_of_not_mem (l : List Char) (c : Char) (h : c ∉ l) :
    lastIdxOf l c = -1 := by
  induction l with
  | nil => rfl
  | cons x xs ih =>
    simp only [List.mem_cons, not_or] at h
    show (if 0 ≤ lastIdxOf xs c then lastIdxOf xs c + 1
      else if x = c then 0 else -1) = -1
    rw [ih h.2]
    have hx : ¬(x = c) := fun he => h.1 he.symm
    simp [hx]

/-- A path without a dot has no extension under `splitext`. -/
theorem splitext_of_not_mem_dot (q : List Char) (h : '.' ∉ q) :
    splitext q = (q, []) := by
  simp only [splitext]
  rw [lastIdxOf_of_not_mem q '.' h]
  have := neg_one_le_lastIdxOf q '/'
  rw [if_neg (by omega)]

/-- Running `load_file` against a loader selection outcome, as an `Except.map`. -/
theorem load_file_of_select (extract : Loader → Except PyErr (List RawDoc))
    (p : List Char) (loader : Loader)
    (hsel : selectLoader (extOf p) = .ok loader) :
    load_file extract p = (extract loader).map (List.map normalizeDoc) := by
  cases hex : extract loader with
  | error e => rw [load_file_eq_err_ex hsel hex]; rfl
  | ok raws => rw [load_file_eq_ok hsel hex]; rfl

/-- Successful runs of `load_file_api`: exactly the successful runs of
`load_file` on the staged temporary file, with the overlay applied. -/
theorem load_file_api_ok_iff (extract : Loader → Except PyErr (List RawDoc))
    (file : UploadFile) (docs : List Document) :
    load_file_api extract file = .ok docs
      ↔ ∃ documents, load_file extract (tmpPath file) = .ok documents
          ∧ docs = documents.map (overlayMeta file.filename) := by
  unfold load_file_api
  cases hl : load_file extract (tmpPath file) with
  | error e => simp [hl]
  | ok documents =>
    simp only [hl]
    constructor
    · intro h
      injection h with h
      exact ⟨documents, rfl, h.symm⟩
    · rintro ⟨documents', h1, h2⟩
      injection h1 with h1
      rw [h2, h1]

/-! ### Claim theorems -/

/-- C1: for every input string `s`, `make_printable s` equals `s` with
exactly those code points deleted that are not printable and are not the
newline character (a filter, so removal is deletion — the result is a
subsequence of `s`); in particular the result contains no non-printable
code point except newline. -/
theorem sanitize_removes_exactly_nonprintables (s : List Char) :
    make_printable s = s.filter (fun c => isPrintable c.toNat || c = '\n')
    ∧ (∀ c ∈ make_printable s, isPrintable c.toNat = true ∨ c = '\n')
    ∧ (make_printable s).Sublist s := by
  refine ⟨make_printable_eq_filter s, ?_, ?_⟩
  · intro c hc
    rw [make_printable_eq_filter] at hc
    have h := List.of_mem_filter hc
    simpa using h
  · rw [make_printable_eq_filter]
    exact List.filter_sublist s

theorem sanitize_removes_exactly_nonprintables_witness :
    make_printable ['a', '\x00', '\n'] = ['a', '\n']
    ∧ (isPrintable 'a'.toNat = true ∨ 'a' = '\n') :=
  ⟨by rw [(sanitize_removes_exactly_nonprintables ['a', '\x00', '\n']).1]; rfl,
   (sanitize_removes_exactly_nonprintables ['a', '\x00', '\n']).2.1 'a' (by decide)⟩

/-- C6: `make_printable` is idempotent, never removes a newline (the count
of `'\n'` is preserved), and fixes every string made only of printable
ASCII characters and newlines. -/
theorem sanitize_idempotent (s : List Char) :
    make_printable (make_printable s) = make_printable s
    ∧ (make_printable s).count '\n' = s.count '\n'
    ∧ ((∀ c ∈ s, (0x20 ≤ c.toNat ∧ c.toNat ≤ 0x7E) ∨ c = '\n') →
        make_printable s = s) := by
  refine ⟨?_, ?_, ?_⟩
  · rw [make_printable_eq_filter s, make_printable_eq_filter,
      List.filter_filter]
    exact List.filter_congr fun c _ => by cases h : isPrintable c.toNat <;> simp [h]
  · rw [make_printable_eq_filter]
    exact List.count_filter (by simp)
  · intro h
    rw [make_printable_eq_filter]
    refine List.filter_eq_self.2 fun c hc => ?_
    rcases h c hc with ⟨h1, h2⟩ | h3
    · have hpr : isPrintable c.toNat = true := by
        unfold isPrintable
        rw [if_neg (by omega), if_pos (by omega)]
      simp [hpr]
    · simp [h3]

theorem sanitize_idempotent_witness :
    make_printable (make_printable ['a', '\x00', '\n']) = make_printable ['a', '\x00', '\n']
    ∧ make_printable ['a', 'b', '\n'] = ['a', 'b', '\n'] :=
  ⟨(sanitize_idempotent ['a', '\x00', '\n']).1,
   (sanitize_idempotent ['a', 'b', '\n']).2.2 (by decide)⟩

/-- C2: `load_file` dispatches on the extension after the last dot, compared
case-insensitively: `.txt` and `.md` select the plain-text loader, `.pdf`
the PDF loader, `.csv` the CSV loader; any other extension raises the
unsupported-file-type `ValueError` carrying the offending (lowered)
extension, and does so for every possible extractor behaviour — no
extraction work happens and zero Documents are produced. -/
theorem load_file_dispatch (extract : Loader → Except PyErr (List RawDoc))
    (p : List Char) :
    (extOf p = ".txt".data ∨ extOf p = ".md".data →
      load_file extract p = (extract .textLoader).map (List.map normalizeDoc))
    ∧ (extOf p = ".pdf".data →
      load_file extract p = (extract .pdfPlumberLoader).map (List.map normalizeDoc))
    ∧ (extOf p = ".csv".data →
      load_file extract p = (extract .csvLoader).map (List.map normalizeDoc))
    ∧ (extOf p ≠ ".txt".data → extOf p ≠ ".md".data → extOf p ≠ ".pdf".data →
      extOf p ≠ ".csv".data →
      ∀ extract2 : Loader → Except PyErr (List RawDoc),
        load_file extract2 p = .error (.valueError (unsupportedMsg (extOf p)))) := by
  refine ⟨?_, ?_, ?_, ?_⟩
  · intro h
    exact load_file_of_select extract p .textLoader (by simp [selectLoader, h])
  · intro h
    exact load_file_of_select extract p .pdfPlumberLoader
      (by simp [selectLoader, h])
  · intro h
    exact load_file_of_select extract p .csvLoader (by simp [selectLoader, h])
  · intro h1 h2 h3 h4 extract2
    exact load_file_eq_err_sel (by simp [selectLoader, h1, h2, h3, h4])

theorem load_file_dispatch_witness :
    load_file (fun _ => .ok []) "a.txt".data = .ok []
    ∧ load_file (fun _ => .ok []) "b.xyz".data
        = .error (.valueError (unsupportedMsg ".xyz".data)) := by
  constructor
  · rw [(load_file_dispatch (fun _ => .ok []) "a.txt".data).1 (Or.inl (by decide))]
    rfl
  · rw [(load_file_dispatch (fun _ => .ok []) "b.xyz".data).2.2.2
      (by decide) (by decide) (by decide) (by decide) (fun _ => .ok [])]
    exact congrArg Except.error (by decide)

/-- C10: a path whose `splitext` extension is empty — any dotless path, and
dotfile-style names such as `.bashrc` — makes `load_file` raise the
unsupported-file-type error whose message carries an empty extension
string. -/
theorem load_file_empty_extension (p : List Char) :
    (splitext ".bashrc".data).2 = []
    ∧ ('.' ∉ p → (splitext p).2 = [])
    ∧ ((splitext p).2 = [] →
        ∀ extract : Loader → Except PyErr (List RawDoc),
          load_file extract p = .error (.valueError (unsupportedMsg []))) := by
  refine ⟨by decide, ?_, ?_⟩
  · intro h
    rw [splitext_of_not_mem_dot p h]
  · intro hext extract
    apply load_file_eq_err_sel
    unfold extOf
    rw [hext]
    rfl

theorem load_file_empty_extension_witness :
    (splitext "noext".data).2 = []
    ∧ load_file (fun _ => .ok []) ".bashrc".data
        = .error (.valueError (unsupportedMsg [])) :=
  ⟨(load_file_empty_extension "noext".data).2.1 (by decide),
   (load_file_empty_extension ".bashrc".data).2.2 (by decide) (fun _ => .ok [])⟩

/-- C3: the metadata of every Document returned by `load_file` binds
`"page"` to the unit's own `"page"` value when the unit supplies one and to
`0` otherwise; when the units' `"page"` values are integers (as the
extractors supply), the bound value is an integer. -/
theorem load_file_page_metadata (extract : Loader → Except PyErr (List RawDoc))
    (p : List Char) :
    (∀ d : RawDoc, (d.metadata.map Prod.fst).Nodup →
      dictGet (normalizeDoc d).metadata "page"
        = some ((dictGet d.metadata "page").getD (.int 0)))
    ∧ (∀ docs, load_file extract p = .ok docs →
        (∀ loader raws, extract loader = .ok raws → ∀ r ∈ raws,
          (r.metadata.map Prod.fst).Nodup
          ∧ ∀ v, dictGet r.metadata "page" = some v → ∃ n : Int, v = .int n) →
        ∀ doc ∈ docs, ∃ n : Int, dictGet doc.metadata "page" = some (.int n)) := by
  refine ⟨fun d hnd => normalizeDoc_page d hnd, ?_⟩
  intro docs h hwf doc hdoc
  obtain ⟨loader, raws, hsel, hex, rfl⟩ := (load_file_ok_iff extract p docs).1 h
  obtain ⟨r, hr, rfl⟩ := List.mem_map.1 hdoc
  obtain ⟨hnd, hint⟩ := hwf loader raws hex r hr
  rw [normalizeDoc_page r hnd]
  cases hv : dictGet r.metadata "page" with
  | none => exact ⟨0, by simp⟩
  | some v =>
    obtain ⟨n, rfl⟩ := hint v hv
    exact ⟨n, by simp⟩

theorem load_file_page_metadata_witness :
    (dictGet (normalizeDoc ⟨"x".data, [("page", .int 5)]⟩).metadata "page"
      = some ((dictGet [("page", .int 5)] "page").getD (.int 0)))
    ∧ ∃ n : Int,
        dictGet (normalizeDoc ⟨"x".data, [("page", .int 5)]⟩).metadata "page"
          = some (.int n) := by
  constructor
  · exact (load_file_page_metadata (fun _ => .ok [⟨"x".data, [("page", .int 5)]⟩])
      "a.txt".data).1 ⟨"x".data, [("page", .int 5)]⟩ (by decide)
  · refine (load_file_page_metadata (fun _ => .ok [⟨"x".data, [("page", .int 5)]⟩])
      "a.txt".data).2 [normalizeDoc ⟨"x".data, [("page", .int 5)]⟩] rfl ?_
      (normalizeDoc ⟨"x".data, [("page", .int 5)]⟩) (by simp)
    intro loader raws hex r hr
    injection hex with hex
    subst hex
    simp only [List.mem_singleton] at hr
    subst hr
    refine ⟨by decide, ?_⟩
    intro v hv
    simp only [dictGet, if_pos rfl] at hv
    injection hv with hv
    exact ⟨5, hv.symm⟩

/-- C5: when a loader is selected for the path and its extraction succeeds
with a sequence of `n` units, `load_file` returns exactly `n` Documents,
the `i`-th being the normalization (sanitized text plus merged metadata) of
the `i`-th unit — extractor order is preserved. -/
theorem load_file_order_preserved (extract : Loader → Except PyErr (List RawDoc))
    (p : List Char) (loader : Loader) (raws : List RawDoc)
    (hsel : selectLoader (extOf p) = .ok loader)
    (hex : extract loader = .ok raws) :
    ∃ docs, load_file extract p = .ok docs
      ∧ docs.length = raws.length
      ∧ ∀ i (hi : i < raws.length) (hd : i < docs.length),
          docs.get ⟨i, hd⟩
            = { page_content := make_printable (raws.get ⟨i, hi⟩).page_content
                metadata := dictUnpack
                  [("page", (dictGet (raws.get ⟨i, hi⟩).metadata "page").getD (.int 0))]
                  (raws.get ⟨i, hi⟩).metadata } := by
  refine ⟨raws.map normalizeDoc, load_file_eq_ok hsel hex, by simp, ?_⟩
  intro i hi hd
  simp [normalizeDoc]

theorem load_file_order_preserved_witness :
    ∃ docs,
      load_file (fun _ => .ok [⟨"a".data, []⟩, ⟨"b".data, []⟩]) "t.csv".data
        = .ok docs
      ∧ docs.length = ([⟨"a".data, []⟩, ⟨"b".data, []⟩] : List RawDoc).length
      ∧ ∀ i (hi : i < ([⟨"a".data, []⟩, ⟨"b".data, []⟩] : List RawDoc).length)
          (hd : i < docs.length),
          docs.get ⟨i, hd⟩
            = { page_content :=
                  make_printable
                    (([⟨"a".data, []⟩, ⟨"b".data, []⟩] : List RawDoc).get
                      ⟨i, hi⟩).page_content
                metadata := dictUnpack
                  [("page",
                    (dictGet
                      (([⟨"a".data, []⟩, ⟨"b".data, []⟩] : List RawDoc).get
                        ⟨i, hi⟩).metadata "page").getD (.int 0))]
                  (([⟨"a".data, []⟩, ⟨"b".data, []⟩] : List RawDoc).get
                    ⟨i, hi⟩).metadata } :=
  load_file_order_preserved (fun _ => .ok [⟨"a".data, []⟩, ⟨"b".data, []⟩])
    "t.csv".data .csvLoader [⟨"a".data, []⟩, ⟨"b".data, []⟩] rfl rfl

/-- C4: after a successful `load_file_api` call, every returned Document's
metadata binds `"source"` and `"document_id"` to the uploaded filename —
whatever bindings the extractor produced for those keys, the overlay values
win. -/
theorem load_file_api_overlay_precedence
    (extract : Loader → Except PyErr (List RawDoc)) (file : UploadFile)
    (docs : List Document) (h : load_file_api extract file = .ok docs) :
    ∀ d ∈ docs,
      dictGet d.metadata "source" = some (.str file.filename)
      ∧ dictGet d.metadata "document_id" = some (.str file.filename) := by
  obtain ⟨documents, hld, rfl⟩ := (load_file_api_ok_iff extract file docs).1 h
  intro d hd
  obtain ⟨d', hd', rfl⟩ := List.mem_map.1 hd
  exact overlayMeta_get file.filename d'

theorem load_file_api_overlay_precedence_witness :
    dictGet
        (⟨"x".data,
          [("page", .int 0), ("source", .str "a.txt".data),
            ("document_id", .str "a.txt".data)]⟩ : Document).metadata "source"
      = some (.str "a.txt".data)
    ∧ dictGet
        (⟨"x".data,
          [("page", .int 0), ("source", .str "a.txt".data),
            ("document_id", .str "a.txt".data)]⟩ : Document).metadata "document_id"
      = some (.str "a.txt".data) :=
  load_file_api_overlay_precedence
    (fun _ => .ok [⟨"x".data, [("source", .str "evil".data)]⟩])
    ⟨"a.txt".data⟩
    [⟨"x".data,
      [("page", .int 0), ("source", .str "a.txt".data),
        ("document_id", .str "a.txt".data)]⟩]
    rfl
    ⟨"x".data,
      [("page", .int 0), ("source", .str "a.txt".data),
        ("document_id", .str "a.txt".data)]⟩
    (List.mem_singleton.2 rfl)

/-- C9: in every Document returned by `load_file_api`, the `"source"` and
`"document_id"` metadata are equal to each other, both being the uploaded
file's filename — they are not independently settable identity values. -/
theorem load_file_api_source_eq_document_id
    (extract : Loader → Except PyErr (List RawDoc)) (file : UploadFile)
    (docs : List Document) (h : load_file_api extract file = .ok docs) :
    ∀ d ∈ docs,
      dictGet d.metadata "source" = dictGet d.metadata "document_id"
      ∧ dictGet d.metadata "source" = some (.str file.filename) := by
  obtain ⟨documents, hld, rfl⟩ := (load_file_api_ok_iff extract file docs).1 h
  intro d hd
  obtain ⟨d', hd', rfl⟩ := List.mem_map.1 hd
  obtain ⟨h1, h2⟩ := overlayMeta_get file.filename d'
  exact ⟨h1.trans h2.symm, h1⟩

theorem load_file_api_source_eq_document_id_witness :
    dictGet
        (⟨"x".data,
          [("page", .int 0), ("source", .str "b.md".data),
            ("document_id", .str "b.md".data)]⟩ : Document).metadata "source"
      = dictGet
        (⟨"x".data,
          [("page", .int 0), ("source", .str "b.md".data),
            ("document_id", .str "b.md".data)]⟩ : Document).metadata "document_id"
    ∧ dictGet
        (⟨"x".data,
          [("page", .int 0), ("source", .str "b.md".data),
            ("document_id", .str "b.md".data)]⟩ : Document).metadata "source"
      = some (.str "b.md".data) :=
  load_file_api_source_eq_document_id
    (fun _ => .ok [⟨"x".data, []⟩])
    ⟨"b.md".data⟩
    [⟨"x".data,
      [("page", .int 0), ("source", .str "b.md".data),
        ("document_id", .str "b.md".data)]⟩]
    rfl
    ⟨"x".data,
      [("page", .int 0), ("source", .str "b.md".data),
        ("document_id", .str "b.md".data)]⟩
    (List.mem_singleton.2 rfl)

/-- C7: every failure inside the load pipeline aborts `load_file_api` and
propagates to the caller as the original typed error — errors pass through
the re-raising handlers unchanged in both directions, and a successful call
returns exactly the full overlay-normalized list produced by `load_file`,
never a partial list alongside an error. -/
theorem load_file_api_error_propagation
    (extract : Loader → Except PyErr (List RawDoc)) (file : UploadFile) :
    (∀ e, load_file extract (tmpPath file) = .error e →
      load_file_api extract file = .error e)
    ∧ (∀ e, load_file_api extract file = .error e →
      load_file extract (tmpPath file) = .error e)
    ∧ (∀ docs, load_file_api extract file = .ok docs →
      ∃ documents, load_file extract (tmpPath file) = .ok documents
        ∧ docs = documents.map (overlayMeta file.filename)) := by
  refine ⟨?_, ?_, ?_⟩
  · intro e he
    unfold load_file_api
    simp [he]
  · intro e he
    cases hl : load_file extract (tmpPath file) with
    | error e2 =>
      unfold load_file_api at he
      simp only [hl] at he
      injection he with he
      rw [he]
    | ok documents =>
      unfold load_file_api at he
      simp only [hl] at he
      exact Except.noConfusion he
  · intro docs h
    exact (load_file_api_ok_iff extract file docs).1 h

theorem load_file_api_error_propagation_witness :
    load_file_api (fun _ => .error (.extractionError "bad pdf".data)) ⟨"a.pdf".data⟩
      = .error (.extractionError "bad pdf".data) :=
  (load_file_api_error_propagation
    (fun _ => .error (.extractionError "bad pdf".data)) ⟨"a.pdf".data⟩).1
    (.extractionError "bad pdf".data) rfl

/-- C8: the temporary file staged for the upload is created on entering the
`with` block and deleted on every exit path — after `load_file_api` returns,
whether with documents, an extraction error or an unsupported-format error,
the set of live temporary files (and open handles to them) is exactly what
it was before the call, and the result is that of `load_file_api`. -/
theorem load_file_api_tmp_cleanup
    (extract : Loader → Except PyErr (List RawDoc)) (file : UploadFile)
    (fs : List (List Char)) :
    (load_file_api_fs extract file fs).2 = fs
    ∧ (load_file_api_fs extract file fs).1 = load_file_api extract file := by
  unfold load_file_api_fs load_file_api
  cases load_file extract (tmpPath file) with
  | error e => simp
  | ok documents => simp
